import Mathlib

/-!
Verification of the real-time ingestion-and-analytics pipeline
(backend of the Binance pairs-trading analytics service).

The Python sources are shallowly embedded:
* timestamps are exact rationals counting seconds since the epoch
  (`datetime` instants), prices and sizes are exact rationals (the
  floats of the source carry no rounding that any verified property
  depends on);
* fallible code (functions that `raise`) returns `Except String`;
* real-valued statistical diagnostics that are irrational
  (square roots, t-distribution p-values) are represented exactly and
  symbolically by the inductive type `FVal`;
* the asyncio services (ingest loop, persistence worker, live stream)
  are embedded as explicit state-passing functions over the sequence of
  events each loop would await.
-/

/-- A normalized trade tick (`backend/schemas/tick.py`, class `Tick`):
symbol, UTC timestamp (seconds), price, size. -/
structure Tick where
  symbol : String
  ts : ℚ
  price : ℚ
  size : ℚ
deriving DecidableEq, Repr

/-- The last `n` elements of a list, in order.  `deque(maxlen := n)`
retains exactly these after any sequence of appends. -/
def takeLast {α : Type} (n : ℕ) (l : List α) : List α :=
  (l.reverse.take n).reverse

/-- In-memory hot store for recent ticks per symbol
(`backend/services/ingest.py`, class `TickBuffer`): a `defaultdict` of
`deque(maxlen := maxlen)` keyed by symbol, embedded as a total function
that is `[]` on unknown symbols. -/
structure TickBuffer where
  maxlen : ℕ
  data : String → List Tick

/-- A fresh `TickBuffer(maxlen := c)`: every per-symbol deque is empty. -/
def TickBuffer.empty (c : ℕ) : TickBuffer :=
  ⟨c, fun _ => []⟩

/-- `TickBuffer.append`: `ensure_symbol` then `deque.append`; a deque
with `maxlen` keeps the most recent `maxlen` items, evicting from the
left. -/
def TickBuffer.append (buf : TickBuffer) (t : Tick) : TickBuffer :=
  { buf with
    data := fun s =>
      if s = t.symbol then takeLast buf.maxlen (buf.data t.symbol ++ [t])
      else buf.data s }

/-- `TickBuffer.snapshot`: `list(self.data.get(symbol, []))`. -/
def TickBuffer.snapshot (buf : TickBuffer) (s : String) : List Tick :=
  buf.data s

/-- A sequence of `append` calls, oldest first. -/
def TickBuffer.appendAll (buf : TickBuffer) (ts : List Tick) : TickBuffer :=
  ts.foldl TickBuffer.append buf

theorem takeLast_append_of_takeLast {α : Type} (n : ℕ) (l r : List α) :
    takeLast n (takeLast n l ++ r) = takeLast n (l ++ r) := by
  unfold takeLast
  rw [List.reverse_append, List.reverse_reverse, List.reverse_append]
  congr 1
  rw [List.take_append_eq_append_take, List.take_append_eq_append_take,
    List.take_take]
  congr 2
  omega

theorem takeLast_of_length_le {α : Type} (n : ℕ) (l : List α)
    (h : l.length ≤ n) : takeLast n l = l := by
  unfold takeLast
  rw [List.take_of_length_le (by simpa using h), List.reverse_reverse]

theorem takeLast_length_le {α : Type} (n : ℕ) (l : List α) :
    (takeLast n l).length ≤ n := by
  simp [takeLast]

theorem tickBuffer_appendAll_snapshot (c : ℕ) (s : String) :
    ∀ (ts : List Tick) (buf : TickBuffer), buf.maxlen = c →
      (buf.snapshot s).length ≤ c →
      (∀ t ∈ ts, t.symbol = s) →
      (buf.appendAll ts).snapshot s = takeLast c (buf.snapshot s ++ ts)
  | [], buf, hc, hinv, _ => by
      simp only [TickBuffer.appendAll, List.foldl_nil, List.append_nil]
      exact (takeLast_of_length_le c _ hinv).symm
  | t :: ts, buf, hc, hinv, hsym => by
      have ht : t.symbol = s := hsym t (by simp)
      have hsnap : (buf.append t).snapshot s
          = takeLast c (buf.snapshot s ++ [t]) := by
        simp [TickBuffer.append, TickBuffer.snapshot, ht, hc]
      have ih := tickBuffer_appendAll_snapshot c s ts (buf.append t)
        (by simp [TickBuffer.append, hc])
        (by rw [hsnap]; exact takeLast_length_le c _)
        (fun u hu => hsym u (by simp [hu]))
      calc (buf.appendAll (t :: ts)).snapshot s
          = ((buf.append t).appendAll ts).snapshot s := by
            simp [TickBuffer.appendAll]
        _ = takeLast c ((buf.append t).snapshot s ++ ts) := ih
        _ = takeLast c (takeLast c (buf.snapshot s ++ [t]) ++ ts) := by
            rw [hsnap]
        _ = takeLast c (buf.snapshot s ++ [t] ++ ts) :=
            takeLast_append_of_takeLast c _ _
        _ = takeLast c (buf.snapshot s ++ (t :: ts)) := by
            rw [List.append_assoc]; rfl

theorem takeLast_eq_drop {α : Type} (n : ℕ) (l : List α) :
    takeLast n l = l.drop (l.length - n) := by
  rw [takeLast, ← List.rtake_eq_reverse_take_reverse, List.rtake]

/-- Claim C4: after `N` appends of ticks for one symbol into a buffer of
capacity `C` with `N > C`, `snapshot` of that symbol returns exactly the
last `C` appended ticks, in append order. -/
theorem tickBuffer_snapshot_lastC (c : ℕ) (ts : List Tick) (s : String)
    (hsym : ∀ t ∈ ts, t.symbol = s) (hlen : c < ts.length) :
    ((TickBuffer.empty c).appendAll ts).snapshot s
        = ts.drop (ts.length - c)
      ∧ (((TickBuffer.empty c).appendAll ts).snapshot s).length = c := by
  have h := tickBuffer_appendAll_snapshot c s ts (TickBuffer.empty c) rfl
    (by simp [TickBuffer.empty, TickBuffer.snapshot]) hsym
  have hempty : (TickBuffer.empty c).snapshot s = [] := rfl
  rw [hempty, List.nil_append] at h
  rw [h, takeLast_eq_drop]
  constructor
  · rfl
  · simp; omega

/-- Witness for C4 at a concrete input: three ticks into a buffer of
capacity 2 leave exactly the last two. -/
theorem tickBuffer_snapshot_lastC_witness :
    (∀ t ∈ [Tick.mk "btcusdt" 0 100 1, Tick.mk "btcusdt" 1 101 1,
        Tick.mk "btcusdt" 2 102 1], t.symbol = "btcusdt")
      ∧ (2 : ℕ) < 3
      ∧ ((TickBuffer.empty 2).appendAll
          [Tick.mk "btcusdt" 0 100 1, Tick.mk "btcusdt" 1 101 1,
            Tick.mk "btcusdt" 2 102 1]).snapshot "btcusdt"
        = [Tick.mk "btcusdt" 1 101 1, Tick.mk "btcusdt" 2 102 1] :=
  ⟨by decide, by decide, by
    have h := tickBuffer_snapshot_lastC 2
      [Tick.mk "btcusdt" 0 100 1, Tick.mk "btcusdt" 1 101 1,
        Tick.mk "btcusdt" 2 102 1] "btcusdt" (by decide) (by decide)
    rw [h.1]
    decide⟩

/-! ### Alert Manager (`backend/services/alerts.py`) -/

/-- Comparison operators of an alert rule
(`backend/schemas/alert.py`, `AlertOperator`): `>`, `>=`, `<`, `<=`. -/
inductive AlertOperator where
  | gt
  | ge
  | lt
  | le
deriving DecidableEq, Repr

/-- An alert rule (`backend/schemas/alert.py`, class `Alert`): the UUID
is embedded as a natural number, thresholds and metric values as exact
rationals, timestamps as rationals.  The `symbols`/`window` fields play
no role in evaluation and are omitted. -/
structure Alert where
  id : ℕ
  name : String
  metric : String
  operator : AlertOperator
  threshold : ℚ
  active : Bool
  lastTriggered : Option ℚ
deriving DecidableEq, Repr

/-- A triggered alert event (`backend/schemas/alert.py`, `AlertEvent`). -/
structure AlertEvent where
  alertId : ℕ
  name : String
  metric : String
  operator : AlertOperator
  threshold : ℚ
  metricValue : ℚ
  triggeredAt : ℚ
deriving DecidableEq, Repr

/-- `AlertManager._compare`: apply the rule operator; the source's
fall-through `return False` is unreachable for the four operators. -/
def alertCompare (value : ℚ) (op : AlertOperator) (threshold : ℚ) : Bool :=
  match op with
  | .gt => decide (threshold < value)
  | .ge => decide (threshold ≤ value)
  | .lt => decide (value < threshold)
  | .le => decide (value ≤ threshold)

/-- The `AlertManager` state: the rules (`self._alerts.values()`, in
insertion order), the bounded event history deque (most recent first)
and its `maxlen` (`history_limit`). -/
structure AlertManager where
  alerts : List Alert
  history : List AlertEvent
  historyLimit : ℕ
deriving Repr

/-- One iteration of the `evaluate` loop body for a single rule:
skip inactive rules, skip rules whose metric key is absent
(`metrics.get` returns `None`), otherwise compare and build the event
with `triggered_at := now` (`datetime.utcnow()`). -/
def evalStep (now : ℚ) (metrics : String → Option ℚ) (a : Alert) :
    Option AlertEvent :=
  if a.active = false then none
  else
    match metrics a.metric with
    | none => none
    | some v =>
        if alertCompare v a.operator a.threshold then
          some ⟨a.id, a.name, a.metric, a.operator, a.threshold, v, now⟩
        else none

/-- The `evaluate` loop over the rules: returns the triggered events in
rule order, the rules after their `last_triggered` mutation, and the
history after the `appendleft`s (a deque `appendleft` with `maxlen`
drops from the right, i.e. `(e :: h).take limit`). -/
def evaluateGo (now : ℚ) (metrics : String → Option ℚ) (limit : ℕ) :
    List Alert → List AlertEvent →
      List AlertEvent × List Alert × List AlertEvent
  | [], hist => ([], [], hist)
  | a :: rest, hist =>
    match evalStep now metrics a with
    | none =>
        let r := evaluateGo now metrics limit rest hist
        (r.1, a :: r.2.1, r.2.2)
    | some e =>
        let r := evaluateGo now metrics limit rest ((e :: hist).take limit)
        (e :: r.1, { a with lastTriggered := some now } :: r.2.1, r.2.2)

/-- `AlertManager.evaluate`: evaluate a metric snapshot against every
rule, mutating rules and history in place; returns the newly triggered
events and the updated manager. -/
def AlertManager.evaluate (m : AlertManager) (now : ℚ)
    (metrics : String → Option ℚ) : List AlertEvent × AlertManager :=
  let r := evaluateGo now metrics m.historyLimit m.alerts m.history
  (r.1, ⟨r.2.1, r.2.2, m.historyLimit⟩)

theorem evaluateGo_fst (now : ℚ) (metrics : String → Option ℚ) (limit : ℕ) :
    ∀ (alerts : List Alert) (hist : List AlertEvent),
      (evaluateGo now metrics limit alerts hist).1
        = alerts.filterMap (evalStep now metrics)
  | [], _ => rfl
  | a :: rest, hist => by
      cases h : evalStep now metrics a with
      | none => simp [evaluateGo, h, evaluateGo_fst now metrics limit rest hist]
      | some e => simp [evaluateGo, h,
          evaluateGo_fst now metrics limit rest ((e :: hist).take limit)]

theorem evaluateGo_alerts (now : ℚ) (metrics : String → Option ℚ)
    (limit : ℕ) :
    ∀ (alerts : List Alert) (hist : List AlertEvent),
      (evaluateGo now metrics limit alerts hist).2.1
        = alerts.map (fun a =>
            match evalStep now metrics a with
            | some _ => { a with lastTriggered := some now }
            | none => a)
  | [], _ => rfl
  | a :: rest, hist => by
      cases h : evalStep now metrics a with
      | none => simp [evaluateGo, h,
          evaluateGo_alerts now metrics limit rest hist]
      | some e => simp [evaluateGo, h,
          evaluateGo_alerts now metrics limit rest ((e :: hist).take limit)]

theorem evaluateGo_hist_mem (now : ℚ) (metrics : String → Option ℚ)
    (limit : ℕ) :
    ∀ (alerts : List Alert) (hist : List AlertEvent) (i : ℕ)
      (x : AlertEvent), hist.get? i = some x →
      i + (alerts.filterMap (evalStep now metrics)).length < limit →
      x ∈ (evaluateGo now metrics limit alerts hist).2.2
  | [], hist, i, x, hget, _ => by
      exact List.get?_mem hget
  | a :: rest, hist, i, x, hget, hlt => by
      cases h : evalStep now metrics a with
      | none =>
          simp only [evaluateGo, h]
          exact evaluateGo_hist_mem now metrics limit rest hist i x hget
            (by simpa [h] using hlt)
      | some e =>
          simp only [evaluateGo, h]
          have hcount :
              i + 1 + (rest.filterMap (evalStep now metrics)).length
                < limit := by
            simp only [List.filterMap_cons, h] at hlt
            simp at hlt ⊢
            omega
          have hget2 : ((e :: hist).take limit).get? (i + 1) = some x := by
            rw [List.get?_take (by omega)]
            simpa using hget
          exact evaluateGo_hist_mem now metrics limit rest
            ((e :: hist).take limit) (i + 1) x hget2 hcount

theorem evaluateGo_append (now : ℚ) (metrics : String → Option ℚ)
    (limit : ℕ) :
    ∀ (l1 l2 : List Alert) (hist : List AlertEvent),
      (evaluateGo now metrics limit (l1 ++ l2) hist).2.2
        = (evaluateGo now metrics limit l2
            (evaluateGo now metrics limit l1 hist).2.2).2.2
  | [], l2, hist => rfl
  | a :: l1, l2, hist => by
      cases h : evalStep now metrics a with
      | none =>
          simp only [List.cons_append, evaluateGo, h]
          exact evaluateGo_append now metrics limit l1 l2 hist
      | some e =>
          simp only [List.cons_append, evaluateGo, h]
          exact evaluateGo_append now metrics limit l1 l2 _

theorem evalStep_eq_some (now : ℚ) (metrics : String → Option ℚ)
    (a : Alert) (e : AlertEvent)
    (h : evalStep now metrics a = some e) :
    a.active = true
      ∧ metrics a.metric = some e.metricValue
      ∧ alertCompare e.metricValue a.operator a.threshold = true
      ∧ e.alertId = a.id ∧ e.triggeredAt = now := by
  unfold evalStep at h
  by_cases hact : a.active = false
  · simp [hact] at h
  · rw [if_neg hact] at h
    cases hm : metrics a.metric with
    | none => rw [hm] at h; exact absurd h (by simp)
    | some v =>
        simp only [hm] at h
        by_cases hc : alertCompare v a.operator a.threshold = true
        · rw [if_pos hc] at h
          cases h
          exact ⟨by simpa using hact, rfl, hc, rfl, rfl⟩
        · rw [if_neg hc] at h
          exact absurd h (by simp)

theorem evalStep_of_trigger (now : ℚ) (metrics : String → Option ℚ)
    (a : Alert) (v : ℚ) (hact : a.active = true)
    (hm : metrics a.metric = some v)
    (hc : alertCompare v a.operator a.threshold = true) :
    evalStep now metrics a
      = some ⟨a.id, a.name, a.metric, a.operator, a.threshold, v, now⟩ := by
  unfold evalStep
  rw [if_neg (by simp [hact])]
  simp only [hm]
  rw [if_pos hc]

/-- Claim C5: `evaluate` triggers no rule whose metric key is absent
from the snapshot and no inactive rule; every active rule whose key is
present and whose operator holds against its threshold produces an event
that is returned, recorded in the bounded history, and whose rule gets
`last_triggered := now`.  The hypotheses reflect the source invariants:
rule ids are distinct (`self._alerts` is a dict keyed by `alert.id`) and
the rule count does not exceed the history bound (default 500), so no
event of this cycle is evicted by this cycle's own `appendleft`s. -/
theorem alertManager_evaluate_spec (m : AlertManager) (now : ℚ)
    (metrics : String → Option ℚ)
    (hids : (m.alerts.map Alert.id).Nodup)
    (hbound : m.alerts.length ≤ m.historyLimit) :
    (∀ a ∈ m.alerts, a.active = false →
        ∀ e ∈ (m.evaluate now metrics).1, e.alertId ≠ a.id)
      ∧ (∀ a ∈ m.alerts, metrics a.metric = none →
        ∀ e ∈ (m.evaluate now metrics).1, e.alertId ≠ a.id)
      ∧ (∀ a ∈ m.alerts, a.active = true → ∀ v, metrics a.metric = some v →
          alertCompare v a.operator a.threshold = true →
          ∃ e, e ∈ (m.evaluate now metrics).1
            ∧ e ∈ (m.evaluate now metrics).2.history
            ∧ e.alertId = a.id ∧ e.metricValue = v ∧ e.triggeredAt = now
            ∧ ∃ a2 ∈ (m.evaluate now metrics).2.alerts,
                a2.id = a.id ∧ a2.lastTriggered = some now) := by
  have htrig : (m.evaluate now metrics).1
      = m.alerts.filterMap (evalStep now metrics) := by
    unfold AlertManager.evaluate
    exact evaluateGo_fst now metrics m.historyLimit m.alerts m.history
  have hmem_src : ∀ e ∈ (m.evaluate now metrics).1,
      ∃ a ∈ m.alerts, evalStep now metrics a = some e := by
    intro e he
    rw [htrig] at he
    obtain ⟨a, ha, hstep⟩ := List.mem_filterMap.1 he
    exact ⟨a, ha, hstep⟩
  refine ⟨?_, ?_, ?_⟩
  · intro a ha hact e he heq
    obtain ⟨a2, ha2, hstep⟩ := hmem_src e he
    obtain ⟨hact2, _, _, hid2, _⟩ := evalStep_eq_some now metrics a2 e hstep
    have : a2 = a := List.inj_on_of_nodup_map hids ha2 ha (by rw [← hid2, heq])
    rw [this] at hact2
    rw [hact] at hact2
    exact absurd hact2 (by simp)
  · intro a ha hnone e he heq
    obtain ⟨a2, ha2, hstep⟩ := hmem_src e he
    obtain ⟨_, hm2, _, hid2, _⟩ := evalStep_eq_some now metrics a2 e hstep
    have : a2 = a := List.inj_on_of_nodup_map hids ha2 ha (by rw [← hid2, heq])
    rw [this, hnone] at hm2
    exact absurd hm2 (by simp)
  · intro a ha hact v hm hc
    obtain ⟨l1, l2, hsplit⟩ := List.append_of_mem ha
    have hstep := evalStep_of_trigger now metrics a v hact hm hc
    refine ⟨⟨a.id, a.name, a.metric, a.operator, a.threshold, v, now⟩,
      ?_, ?_, rfl, rfl, rfl, ?_⟩
    · rw [htrig]
      exact List.mem_filterMap.2 ⟨a, ha, hstep⟩
    · -- membership in the final bounded history
      unfold AlertManager.evaluate
      simp only []
      rw [hsplit, evaluateGo_append]
      set h1 := (evaluateGo now metrics m.historyLimit l1 m.history).2.2
      show _ ∈ (evaluateGo now metrics m.historyLimit (a :: l2) h1).2.2
      simp only [evaluateGo, hstep]
      have hlim : 0 < m.historyLimit := by
        rw [hsplit] at hbound
        simp at hbound
        omega
      have hcount : 0 + (l2.filterMap (evalStep now metrics)).length
          < m.historyLimit := by
        have hle := List.length_filterMap_le (evalStep now metrics) l2
        rw [hsplit] at hbound
        simp at hbound
        omega
      refine evaluateGo_hist_mem now metrics m.historyLimit l2 _ 0 _ ?_ hcount
      rw [List.get?_take hlim]
      rfl
    · refine ⟨{ a with lastTriggered := some now }, ?_, rfl, rfl⟩
      unfold AlertManager.evaluate
      simp only []
      rw [evaluateGo_alerts]
      refine List.mem_map.2 ⟨a, ha, ?_⟩
      rw [hstep]

/-- Concrete manager for the C5 witness: one active `zscore > 1` rule. -/
def c5SampleMgr : AlertManager :=
  AlertManager.mk
    [Alert.mk 7 "big z" "zscore" AlertOperator.gt 1 true none] [] 500

/-- Concrete metric snapshot for the C5 witness: `zscore = 2`. -/
def c5SampleMetrics : String → Option ℚ :=
  fun k => if k = "zscore" then some 2 else none

/-- Witness for C5: one active `zscore > 1` rule with metric value 2. -/
theorem alertManager_evaluate_spec_witness :
    ((c5SampleMgr.alerts.map Alert.id).Nodup
      ∧ c5SampleMgr.alerts.length ≤ c5SampleMgr.historyLimit)
      ∧ (∀ a ∈ c5SampleMgr.alerts, a.active = true → ∀ v,
          c5SampleMetrics a.metric = some v →
          alertCompare v a.operator a.threshold = true →
          ∃ e, e ∈ (c5SampleMgr.evaluate 3 c5SampleMetrics).1
            ∧ e ∈ (c5SampleMgr.evaluate 3 c5SampleMetrics).2.history
            ∧ e.alertId = a.id ∧ e.metricValue = v ∧ e.triggeredAt = 3
            ∧ ∃ a2 ∈ (c5SampleMgr.evaluate 3 c5SampleMetrics).2.alerts,
                a2.id = a.id ∧ a2.lastTriggered = some 3) :=
  ⟨⟨by decide, by decide⟩,
    (alertManager_evaluate_spec c5SampleMgr 3 c5SampleMetrics
      (by decide) (by decide)).2.2⟩

/-! ### Analytics engine (`backend/analytics/metrics.py`) -/

/-- A price series: (timestamp in seconds, value) pairs, the embedding
of a float `pd.Series` with a `DatetimeIndex`. -/
abbrev Series : Type := List (ℚ × ℚ)

deriving instance DecidableEq for Except

/-- Exact symbolic representation of the real-valued statistical
diagnostics the source computes with floating point.  All reals the
pipeline produces are either rational or of one of these closed forms:
`rat q` is the rational `q`; `ratDivSqrt x v` is `x / Real.sqrt v`
(z-scores and correlations, with `v > 0` at every producing site);
`sqrtQ x` is `Real.sqrt x` (the `rvalue = sqrt(R²)` and
`stderr = sqrt(se²)` of the regression); `tTestPValue tsq df` is the
two-sided p-value of a Student-t statistic `t` with `t² = tsq` and `df`
degrees of freedom, kept symbolic because the t CDF is not rational.
No verified claim inspects the numeric value of a non-rational form. -/
inductive FVal where
  | rat : ℚ → FVal
  | ratDivSqrt : ℚ → ℚ → FVal
  | sqrtQ : ℚ → FVal
  | tTestPValue : ℚ → ℕ → FVal
deriving DecidableEq, Repr

/-- Hedge ratio regression outputs (`HedgeRatioResult` dataclass). -/
structure HedgeRatioResult where
  beta : ℚ
  intercept : Option ℚ
  rvalue : Option FVal
  pvalue : Option FVal
  stderr : Option FVal
deriving DecidableEq, Repr

/-- Stable insertion of a point into a series sorted by timestamp;
an equal timestamp goes after the existing entries (stable order). -/
def insertByTs (p : ℚ × ℚ) : List (ℚ × ℚ) → List (ℚ × ℚ)
  | [] => [p]
  | q :: rest => if p.1 < q.1 then p :: q :: rest else q :: insertByTs p rest

/-- Stable sort of a series by timestamp; embeds the
`sort_values("ts")` / `sort_index()` calls of the source. -/
def sortByTs (l : List (ℚ × ℚ)) : List (ℚ × ℚ) :=
  l.foldr insertByTs []

/-- Absolute value on `ℚ`, written so that it evaluates by kernel
reduction (the lattice `|.|` does not). -/
def ratAbs (q : ℚ) : ℚ :=
  if q < 0 then -q else q

/-- Squaring on `ℚ`, written so that it evaluates by kernel
reduction (the monoid `^` does not). -/
def ratSq (q : ℚ) : ℚ :=
  q * q

/-- The `merge_asof(..., direction="nearest", tolerance=1s)` match for
one left-hand timestamp: the candidate in `l` within one second that
minimizes the distance (scanning left to right, an earlier candidate
wins ties). -/
def nearestIn (ts : ℚ) (l : List (ℚ × ℚ)) : Option (ℚ × ℚ) :=
  l.foldl
    (fun acc p =>
      if ratAbs (p.1 - ts) ≤ 1 then
        match acc with
        | none => some p
        | some q =>
            if ratAbs (p.1 - ts) < ratAbs (q.1 - ts) then some p else acc
      else acc)
    none

/-- `_align_series`: sort both series, match every timestamp of A with
the nearest timestamp of B within one second (`merge_asof` keeps every
left row; rows without a match get NaN and are dropped by
`dropna(how="any")`), and require at least 10 overlapping points. -/
def alignSeries (a b : Series) : Except String (List (ℚ × ℚ × ℚ)) :=
  let sa := sortByTs a
  let sb := sortByTs b
  let merged := sa.filterMap
    (fun p => (nearestIn p.1 sb).map (fun q => (p.1, p.2, q.2)))
  let n := merged.length
  if n < 10 then
    .error s!"Insufficient overlapping data points: {n} (need at least 10)"
  else
    .ok merged

/-- Mean of a float column (`Series.mean()`); junk 0 on the empty list,
which no call site reaches. -/
def listMean (l : List ℚ) : ℚ :=
  l.sum / l.length

/-- Sample variance with `ddof = 1` (the square of `Series.std()`);
call sites guard `l.length ≥ 2`. -/
def sampleVar (l : List ℚ) : ℚ :=
  (l.map (fun x => ratSq (x - listMean l))).sum / ((l.length : ℚ) - 1)

/-- Sample covariance with `ddof = 1` of two equally long columns. -/
def sampleCov (p q : List ℚ) : ℚ :=
  ((p.zip q).map
      (fun xy => (xy.1 - listMean p) * (xy.2 - listMean q))).sum
    / ((p.length : ℚ) - 1)

/-- Closed-form summary of one `sm.OLS(y, X).fit()` call: coefficient,
optional intercept, R², squared standard error of the coefficient, and
squared t-statistic with its degrees of freedom (`sesq`, `tsq` are the
squares of the source's `bse` and t values; `pvalues` is a monotone
function of `tsq` at fixed `df`). -/
structure OLSFit where
  beta : ℚ
  intercept : Option ℚ
  rsq : ℚ
  sesq : ℚ
  tsq : ℚ
  df : ℕ
deriving DecidableEq, Repr

/-- Ordinary least squares of `ys` on `xs`, the closed form of
`sm.OLS(y, sm.add_constant(x)).fit()` (centered R²) respectively
`sm.OLS(y, x).fit()` (uncentered R², no intercept). -/
def olsFit (ys xs : List ℚ) (includeIntercept : Bool) : OLSFit :=
  if includeIntercept then
    let xbar := listMean xs
    let ybar := listMean ys
    let sxx := (xs.map (fun x => ratSq (x - xbar))).sum
    let sxy := ((xs.zip ys).map
      (fun xy => (xy.1 - xbar) * (xy.2 - ybar))).sum
    let beta := sxy / sxx
    let icept := ybar - beta * xbar
    let ssr := ((xs.zip ys).map
      (fun xy => ratSq (xy.2 - icept - beta * xy.1))).sum
    let sst := (ys.map (fun y => ratSq (y - ybar))).sum
    let df := ys.length - 2
    let sesq := ssr / df / sxx
    ⟨beta, some icept, 1 - ssr / sst, sesq, ratSq beta / sesq, df⟩
  else
    let sxx := (xs.map (fun x => ratSq x)).sum
    let sxy := ((xs.zip ys).map (fun xy => xy.1 * xy.2)).sum
    let beta := sxy / sxx
    let ssr := ((xs.zip ys).map (fun xy => ratSq (xy.2 - beta * xy.1))).sum
    let syy := (ys.map (fun y => ratSq y)).sum
    let df := ys.length - 1
    let sesq := ssr / df / sxx
    ⟨beta, none, 1 - ssr / syy, sesq, ratSq beta / sesq, df⟩

/-- The `HedgeRatioResult` assembled from one OLS fit:
`rvalue = sqrt(R²)`, `pvalue` the two-sided t test p-value,
`stderr = sqrt(se²)`. -/
def hedgeOfFit (fit : OLSFit) : HedgeRatioResult :=
  ⟨fit.beta, fit.intercept, some (.sqrtQ fit.rsq),
    some (.tTestPValue fit.tsq fit.df), some (.sqrtQ fit.sesq)⟩

/-- `compute_hedge_ratio`: align, reject empty/short overlaps,
non-positive prices and extreme variance, run OLS, and apply the
"reverse regression" heuristic when `|beta| > 1000`.  The variance
guard `std > mean * 10` is embedded as `var > ratSq (10 * mean)`, equivalent
because the prior guard makes every price (hence the mean) positive and
`std ≥ 0`. -/
def computeHedgeRatioFn (a b : Series) (includeIntercept : Bool) :
    Except String HedgeRatioResult := do
  let aligned ← alignSeries a b
  if aligned.length = 0 then
    .error "No overlapping observations between the provided series."
  else if aligned.length < 50 then
    let n := aligned.length
    .error s!"Insufficient data for regression: {n} points (need at least 50)"
  else
    let ys := aligned.map (fun e => e.2.1)
    let xs := aligned.map (fun e => e.2.2)
    if ys.any (fun y => decide (y ≤ 0)) || xs.any (fun x => decide (x ≤ 0))
    then .error "Price series contains non-positive values"
    else if decide (ratSq (10 * listMean ys) < sampleVar ys)
        || decide (ratSq (10 * listMean xs) < sampleVar xs) then
      .error "Price series has extreme variance, likely data quality issue"
    else
      let fit := olsFit ys xs includeIntercept
      if decide (1000 < ratAbs fit.beta) then
        let rfit := olsFit xs ys includeIntercept
        if decide (0 < ratAbs rfit.beta) && decide (ratAbs rfit.beta < 1000)
        then
          .ok ⟨if rfit.beta ≠ 0 then 1 / rfit.beta else fit.beta,
            if includeIntercept then rfit.intercept else none,
            some (.sqrtQ rfit.rsq), some (.tTestPValue rfit.tsq rfit.df),
            some (.sqrtQ rfit.sesq)⟩
        else .ok (hedgeOfFit fit)
      else .ok (hedgeOfFit fit)

/-- `compute_spread`: align and form `A - beta * B`, then subtract the
intercept when present. -/
def computeSpread (a b : Series) (h : HedgeRatioResult) :
    Except String Series := do
  let aligned ← alignSeries a b
  let s : Series := aligned.map (fun e => (e.1, e.2.1 - h.beta * e.2.2))
  match h.intercept with
  | some c => .ok (s.map (fun p => (p.1, p.2 - c)))
  | none => .ok s

/-- The rolling window ending at position `i` (0-based): the last `w`
of the first `i + 1` values. -/
def windowSlice (s : List ℚ) (w i : ℕ) : List ℚ :=
  takeLast w (s.take (i + 1))

/-- One retained point of the rolling z-score series: the position in
the input, the numerator `value - rolling_mean`, and the rolling sample
variance; the z value is the real number `num / Real.sqrt var`. -/
structure ZEntry where
  idx : ℕ
  num : ℚ
  var : ℚ
deriving DecidableEq, Repr

/-- `compute_zscore`: reject `window ≤ 1`; rolling mean and std with
`min_periods = min(2, window)`; return `zscore[rolling_std > 0].dropna()`.
A point survives exactly when its window holds at least `min_periods`
observations (otherwise mean and std are NaN) and its rolling variance
is positive (the source's `rolling_std > 0`, which also discards NaN
stds); the surviving values are well defined reals, so the `dropna`
removes nothing further. -/
def computeZscore (s : List ℚ) (window : ℕ) :
    Except String (List ZEntry) :=
  if window ≤ 1 then .error "Rolling window must be greater than 1."
  else
    let minPeriods := min 2 window
    .ok ((List.range s.length).filterMap (fun i =>
      let slice := windowSlice s window i
      if minPeriods ≤ slice.length ∧ 0 < sampleVar slice then
        some ⟨i, s.getD i 0 - listMean slice, sampleVar slice⟩
      else none))

/-- One non-NaN point of the rolling Pearson correlation series:
position in the aligned frame, rolling covariance and the two rolling
variances; the value is `cov / Real.sqrt (va * vb)`. -/
structure CEntry where
  idx : ℕ
  cov : ℚ
  va : ℚ
  vb : ℚ
deriving DecidableEq, Repr

/-- `compute_rolling_correlation`: reject `window ≤ 1`; align; rolling
Pearson correlation with `min_periods = min(2, window)`.  The embedding
returns the well-defined (non-NaN) points — windows with at least
`min_periods` observations and both variances positive — which is the
series the only caller observes after its immediate `dropna()`. -/
def computeRollingCorrelationFn (a b : Series) (window : ℕ) :
    Except String (List CEntry) :=
  if window ≤ 1 then .error "Rolling window must be greater than 1."
  else
    (alignSeries a b).map (fun aligned =>
      let av := aligned.map (fun e => e.2.1)
      let bv := aligned.map (fun e => e.2.2)
      let minPeriods := min 2 window
      (List.range aligned.length).filterMap (fun i =>
        let wa := windowSlice av window i
        let wb := windowSlice bv window i
        if minPeriods ≤ wa.length ∧ 0 < sampleVar wa ∧ 0 < sampleVar wb
        then some ⟨i, sampleCov wa wb, sampleVar wa, sampleVar wb⟩
        else none))

/-! ### Live metrics service layer (`backend/services/metrics.py`) -/

/-- `_price_series`: `ticks_to_dataframe` indexes the records by
timestamp and sorts; the price column is extracted.  Empty input gives
the empty series. -/
def pricesOf (ticks : List Tick) : Series :=
  sortByTs (ticks.map (fun t => (t.ts, t.price)))

/-- Mirror of the `HedgeRatioResponse` pydantic model. -/
structure HedgeRatioResponse where
  beta : ℚ
  intercept : Option ℚ
  rvalue : Option FVal
  pvalue : Option FVal
  stderr : Option FVal
deriving DecidableEq, Repr

/-- Mirror of the `ADFPayload` pydantic model (never constructed here:
every claim concerns the live stream, which calls with `adf=False`). -/
structure ADFPayload where
  statistic : FVal
  pvalue : FVal
  lags : ℕ
  nobs : ℕ
  criticalValues : List (String × FVal)
deriving DecidableEq, Repr

/-- Mirror of the `AnalyticsResponse` pydantic model. -/
structure AnalyticsResponse where
  hedgeRatioResp : HedgeRatioResponse
  latestSpread : Option ℚ
  latestZscore : Option FVal
  rollingCorrelation : Option FVal
  adf : Option ADFPayload
deriving DecidableEq, Repr

/-- The placeholder response returned when either price series is
empty: `beta = 0.0`, `intercept = 0.0`, everything else absent. -/
def placeholderAnalytics : AnalyticsResponse :=
  ⟨⟨0, some 0, none, none, none⟩, none, none, none, none⟩

/-- The raw `metrics_map` of `compute_pair_metrics` before its
`None`-filter: spread, zscore, correlation from the latest values and
the always-present beta. -/
def rawMetricsMap (r : AnalyticsResponse) : List (String × Option FVal) :=
  [("spread", r.latestSpread.map FVal.rat),
    ("zscore", r.latestZscore),
    ("correlation", r.rollingCorrelation),
    ("beta", some (FVal.rat r.hedgeRatioResp.beta))]

/-- `compute_pair_metrics` (`backend/services/metrics.py`), embedded at
`adf := False` — the mode of its live-stream caller, which every claim
concerns; with `adf=True` the extra branch only may set the `adf` field,
catching every exception of the numeric ADF routine.  Returns the
analytics response and the metric map with `None` values filtered out
(`{k: v for k, v in metrics_map.items() if v is not None}`). -/
def computePairMetrics (ticksA ticksB : List Tick) (window : ℕ)
    (includeIntercept : Bool) :
    Except String (AnalyticsResponse × List (String × FVal)) :=
  let sa := pricesOf ticksA
  let sb := pricesOf ticksB
  if sa.length = 0 ∨ sb.length = 0 then
    .ok (placeholderAnalytics, [])
  else
    match computeHedgeRatioFn sa sb includeIntercept with
    | .error e => .error e
    | .ok hedge =>
      match computeSpread sa sb hedge with
      | .error e => .error e
      | .ok spread =>
        let effectiveWindow := max (min window spread.length) 2
        match (if 2 ≤ spread.length then
            computeZscore (spread.map (fun p => p.2)) effectiveWindow
          else .ok []) with
        | .error e => .error e
        | .ok zs =>
          match (if 2 ≤ sa.length ∧ 2 ≤ sb.length then
              computeRollingCorrelationFn sa sb effectiveWindow
            else .ok []) with
          | .error e => .error e
          | .ok cs =>
            let analytics : AnalyticsResponse :=
              ⟨⟨hedge.beta, hedge.intercept, hedge.rvalue, hedge.pvalue,
                  hedge.stderr⟩,
                spread.getLast?.map (fun p => p.2),
                zs.getLast?.map (fun e => FVal.ratDivSqrt e.num e.var),
                cs.getLast?.map
                  (fun e => FVal.ratDivSqrt e.cov (e.va * e.vb)),
                none⟩
            .ok (analytics,
              (rawMetricsMap analytics).filterMap
                (fun kv => kv.2.map (fun v => (kv.1, v))))

/-- The body of `LiveMetricsStream._run` around the analytics call: the
loop catches only `asyncio.CancelledError`, so any error raised by
`compute_pair_metrics` propagates out of the task (the `Except` is
threaded, not handled).  The alert evaluation and broadcast follow the
computation and are unreachable when it fails. -/
def liveRunStep (bufA bufB : List Tick) (window : ℕ) :
    Except String AnalyticsResponse :=
  (computePairMetrics bufA bufB window true).map Prod.fst

/-! ### Theorems about the analytics engine -/

theorem mem_insertByTs (p x : ℚ × ℚ) :
    ∀ l : List (ℚ × ℚ), x ∈ insertByTs p l ↔ x = p ∨ x ∈ l
  | [] => by simp [insertByTs]
  | q :: rest => by
      unfold insertByTs
      by_cases h : p.1 < q.1
      · simp [h]
      · simp only [if_neg h, List.mem_cons, mem_insertByTs p x rest]
        tauto

theorem mem_sortByTs (x : ℚ × ℚ) :
    ∀ l : List (ℚ × ℚ), x ∈ sortByTs l ↔ x ∈ l
  | [] => by simp [sortByTs]
  | q :: rest => by
      unfold sortByTs
      simp only [List.foldr_cons]
      rw [mem_insertByTs]
      show x = q ∨ x ∈ sortByTs rest ↔ _
      rw [mem_sortByTs x rest]
      simp

theorem alignSeries_ok (a b : Series) (al : List (ℚ × ℚ × ℚ))
    (h : alignSeries a b = .ok al) :
    al = (sortByTs a).filterMap
      (fun p => (nearestIn p.1 (sortByTs b)).map (fun q => (p.1, p.2, q.2)))
      ∧ 10 ≤ al.length := by
  unfold alignSeries at h
  by_cases hlt : ((sortByTs a).filterMap
      (fun p => (nearestIn p.1 (sortByTs b)).map
        (fun q => (p.1, p.2, q.2)))).length < 10
  · rw [if_pos hlt] at h
    exact absurd h (by simp)
  · rw [if_neg hlt] at h
    cases h
    exact ⟨rfl, by omega⟩

/-- The hedge-ratio value of claim C7: `beta = 0`, `intercept = 0`. -/
def hedgeZero : HedgeRatioResult :=
  ⟨0, some 0, none, none, none⟩

/-- Concrete series for C7: eleven points of A ten seconds apart ... -/
def c7A : Series :=
  [(0, 1), (10, 2), (20, 3), (30, 4), (40, 5), (50, 6), (60, 7), (70, 8),
    (80, 9), (90, 10), (100, 11)]

/-- ... and ten points of B matching all timestamps of A except the
last, which is ten seconds away from every point of B — outside the
one-second alignment tolerance. -/
def c7B : Series :=
  [(0, 5), (10, 5), (20, 5), (30, 5), (40, 5), (50, 5), (60, 5), (70, 5),
    (80, 5), (90, 5)]

/-- The aligned frame of `c7A`/`c7B`: ten rows, the last point of A
dropped. -/
def c7AL : List (ℚ × ℚ × ℚ) :=
  [(0, 1, 5), (10, 2, 5), (20, 3, 5), (30, 4, 5), (40, 5, 5), (50, 6, 5),
    (60, 7, 5), (70, 8, 5), (80, 9, 5), (90, 10, 5)]

/-- Counterexample to claim C7 as stated: with `beta = 0`,
`intercept = 0` the spread of `c7A` against `c7B` is not the series A
unchanged — alignment drops the point of A without a counterpart in B
within the one-second tolerance. -/
theorem computeSpread_beta0_cex :
    computeSpread c7A c7B hedgeZero ≠ .ok c7A := by
  with_unfolding_all decide

/-- Claim C7 (amended): whenever the two series align, the spread
computed with `beta = 0`, `intercept = 0` is exactly series A restricted
to the aligned rows — pointwise, each output point is a point of A with
its value unchanged. -/
theorem computeSpread_beta0_aligned (a b : Series)
    (al : List (ℚ × ℚ × ℚ)) (hal : alignSeries a b = .ok al) :
    computeSpread a b hedgeZero = .ok (al.map (fun e => (e.1, e.2.1)))
      ∧ ∀ p ∈ al.map (fun e => (e.1, e.2.1)), p ∈ a := by
  constructor
  · unfold computeSpread
    rw [hal]
    show Except.ok _ = _
    congr 1
    rw [List.map_map]
    apply List.map_congr_left
    intro e _
    show (e.1, e.2.1 - hedgeZero.beta * e.2.2 - 0) = (e.1, e.2.1)
    have : e.2.1 - hedgeZero.beta * e.2.2 - 0 = e.2.1 := by
      show e.2.1 - 0 * e.2.2 - 0 = e.2.1
      ring
    rw [this]
  · intro p hp
    obtain ⟨e, he, hpe⟩ := List.mem_map.1 hp
    obtain ⟨hfm, _⟩ := alignSeries_ok a b al hal
    rw [hfm] at he
    obtain ⟨q, hq, hqe⟩ := List.mem_filterMap.1 he
    cases hnear : nearestIn q.1 (sortByTs b) with
    | none => rw [hnear] at hqe; exact absurd hqe (by simp)
    | some qb =>
        rw [hnear] at hqe
        simp only [Option.map_some'] at hqe
        cases hqe
        cases hpe
        have : (q.1, q.2) = q := rfl
        rw [this]
        exact (mem_sortByTs q a).1 hq

/-- Witness for the amended C7 at the concrete aligned pair. -/
theorem computeSpread_beta0_aligned_witness :
    alignSeries c7A c7B = .ok c7AL
      ∧ (computeSpread c7A c7B hedgeZero
            = .ok (c7AL.map (fun e => (e.1, e.2.1)))
          ∧ ∀ p ∈ c7AL.map (fun e => (e.1, e.2.1)), p ∈ c7A) :=
  ⟨by with_unfolding_all rfl,
    computeSpread_beta0_aligned c7A c7B c7AL (by with_unfolding_all rfl)⟩

theorem list_sum_all_eq (c : ℚ) :
    ∀ l : List ℚ, (∀ x ∈ l, x = c) → l.sum = c * l.length
  | [], _ => by simp
  | x :: rest, h => by
      have hx : x = c := h x (by simp)
      have hrest := list_sum_all_eq c rest (fun y hy => h y (by simp [hy]))
      simp only [List.sum_cons, hrest, hx, List.length_cons]
      push_cast
      ring

theorem listMean_all_eq (l : List ℚ) (c : ℚ) (hne : l ≠ [])
    (h : ∀ x ∈ l, x = c) : listMean l = c := by
  unfold listMean
  rw [list_sum_all_eq c l h]
  have hlen0 : l.length ≠ 0 := fun hz => hne (List.length_eq_zero.1 hz)
  have hlen : (l.length : ℚ) ≠ 0 := Nat.cast_ne_zero.2 hlen0
  field_simp

/-- A window all of whose values are equal has sample variance zero. -/
theorem sampleVar_all_eq (l : List ℚ)
    (h : ∀ x ∈ l, ∀ y ∈ l, x = y) : sampleVar l = 0 := by
  cases l with
  | nil => simp [sampleVar, listMean]
  | cons c rest =>
      have hc : ∀ x ∈ c :: rest, x = c :=
        fun x hx => h x hx c (by simp)
      have hmean : listMean (c :: rest) = c :=
        listMean_all_eq _ c (by simp) hc
      unfold sampleVar
      have hzero : ∀ z ∈ (c :: rest).map
          (fun x => ratSq (x - listMean (c :: rest))), z = 0 := by
        intro z hz
        obtain ⟨x, hx, hxz⟩ := List.mem_map.1 hz
        rw [← hxz, hmean, hc x hx]
        simp [ratSq]
      rw [list_sum_all_eq 0 _ hzero]
      simp

theorem computeZscore_mem (s : List ℚ) (w : ℕ) (out : List ZEntry)
    (hw : 2 ≤ w) (hok : computeZscore s w = .ok out)
    (e : ZEntry) (he : e ∈ out) :
    0 < e.var
      ∧ e.var = sampleVar (windowSlice s w e.idx)
      ∧ 2 ≤ (windowSlice s w e.idx).length := by
  have hnot : ¬ (w ≤ 1) := by omega
  unfold computeZscore at hok
  rw [if_neg hnot] at hok
  cases hok
  obtain ⟨i, _, hfi⟩ := List.mem_filterMap.1 he
  dsimp only at hfi
  by_cases hcond : min 2 w ≤ (windowSlice s w i).length
      ∧ 0 < sampleVar (windowSlice s w i)
  · rw [if_pos hcond] at hfi
    cases hfi
    refine ⟨hcond.2, rfl, ?_⟩
    show 2 ≤ (windowSlice s w i).length
    have := hcond.1
    omega
  · rw [if_neg hcond] at hfi
    exact absurd hfi (by simp)

/-- Claim C8: for `window > 1`, every point of the rolling z-score
output has strictly positive rolling sample variance — the variance of
its actual window, over at least the two observations `min_periods`
requires — and every position whose window is constant (variance zero)
is excluded.  In particular each retained z value
`num / Real.sqrt var` with `var > 0` is a well-defined real number:
the series the caller receives holds no NaN. -/
theorem computeZscore_excludes_zero_std (s : List ℚ) (w : ℕ)
    (out : List ZEntry) (hw : 2 ≤ w)
    (hok : computeZscore s w = .ok out) :
    (∀ e ∈ out, 0 < e.var
        ∧ e.var = sampleVar (windowSlice s w e.idx)
        ∧ 2 ≤ (windowSlice s w e.idx).length)
      ∧ ∀ i, (∀ x ∈ windowSlice s w i, ∀ y ∈ windowSlice s w i, x = y) →
          ∀ e ∈ out, e.idx ≠ i := by
  refine ⟨fun e he => computeZscore_mem s w out hw hok e he, ?_⟩
  intro i hconst e he heq
  obtain ⟨hpos, hvar, _⟩ := computeZscore_mem s w out hw hok e he
  rw [heq] at hvar
  rw [hvar, sampleVar_all_eq _ hconst] at hpos
  exact lt_irrefl 0 hpos

/-- Witness for C8: spread `[5, 5, 7]`, window 2.  The point at
position 1, whose window `[5, 5]` is constant, yields no output; the
single retained point has variance 2 > 0. -/
theorem computeZscore_excludes_zero_std_witness :
    (2 ≤ 2 ∧ computeZscore [5, 5, 7] 2 = .ok [ZEntry.mk 2 1 2])
      ∧ ((∀ e ∈ [ZEntry.mk 2 1 2], 0 < e.var
            ∧ e.var = sampleVar (windowSlice [5, 5, 7] 2 e.idx)
            ∧ 2 ≤ (windowSlice [5, 5, 7] 2 e.idx).length)
          ∧ ∀ i, (∀ x ∈ windowSlice [5, 5, 7] 2 i,
                ∀ y ∈ windowSlice [5, 5, 7] 2 i, x = y) →
              ∀ e ∈ [ZEntry.mk 2 1 2], e.idx ≠ i) :=
  ⟨⟨by omega, by with_unfolding_all rfl⟩,
    computeZscore_excludes_zero_std [5, 5, 7] 2 [ZEntry.mk 2 1 2]
      (by omega) (by with_unfolding_all rfl)⟩

/-- C1 failing input, side A: five `btcusdt` ticks one second apart. -/
def c1TicksA : List Tick :=
  [⟨"btcusdt", 0, 100, 1⟩, ⟨"btcusdt", 1, 101, 1⟩, ⟨"btcusdt", 2, 102, 1⟩,
    ⟨"btcusdt", 3, 103, 1⟩, ⟨"btcusdt", 4, 104, 1⟩]

/-- C1 failing input, side B: five `ethusdt` ticks at the same
timestamps — five aligned points, below the minimum of ten. -/
def c1TicksB : List Tick :=
  [⟨"ethusdt", 0, 10, 1⟩, ⟨"ethusdt", 1, 11, 1⟩, ⟨"ethusdt", 2, 12, 1⟩,
    ⟨"ethusdt", 3, 13, 1⟩, ⟨"ethusdt", 4, 14, 1⟩]

/-- Claim C1 (code bug): on two non-empty tick lists whose aligned
overlap is below the minimum threshold, `compute_pair_metrics` does not
return a partial result — the `ValueError` of `_align_series`
propagates out of it, and `LiveMetricsStream._run`, which catches only
`CancelledError`, propagates it further, killing the live-metrics
task.  (The window 300 and `include_intercept=True` are the live
stream's arguments.) -/
theorem computePairMetrics_insufficient_raises :
    computePairMetrics c1TicksA c1TicksB 300 true
        = .error "Insufficient overlapping data points: 5 (need at least 10)"
      ∧ liveRunStep c1TicksA c1TicksB 300
        = .error
          "Insufficient overlapping data points: 5 (need at least 10)" :=
  ⟨by with_unfolding_all rfl, by with_unfolding_all rfl⟩

theorem mem_rawMetricsMap_of_filter (r : AnalyticsResponse)
    (k : String) (v : FVal)
    (h : (k, v) ∈ (rawMetricsMap r).filterMap
      (fun kv => kv.2.map (fun x => (kv.1, x)))) :
    (k, some v) ∈ rawMetricsMap r := by
  obtain ⟨kv, hkv, hmap⟩ := List.mem_filterMap.1 h
  cases hv : kv.2 with
  | none => rw [hv] at hmap; exact absurd hmap (by simp)
  | some x =>
      rw [hv] at hmap
      have hmap2 : (kv.1, x) = (k, v) := by
        apply Option.some.inj
        simpa using hmap
      have hk : kv.1 = k := congrArg Prod.fst hmap2
      have hx : x = v := congrArg Prod.snd hmap2
      have heq : (k, some v) = (kv.1, kv.2) := by rw [hk, hv, hx]
      rw [heq]
      exact hkv

theorem filterMap_const_none {α β : Type} (l : List α) :
    l.filterMap (fun _ => (none : Option β)) = [] := by
  induction l with
  | nil => rfl
  | cons x rest ih => simp [List.filterMap_cons, ih]

theorem evalStep_metrics_none (now : ℚ) (a : Alert) :
    evalStep now (fun _ => none) a = none := by
  unfold evalStep
  by_cases h : a.active = false
  · rw [if_pos h]
  · rw [if_neg h]

/-- Claim C10: when either tick list yields an empty price series,
`compute_pair_metrics` returns the placeholder response
(`beta = 0.0`, `intercept = 0.0`, every other metric absent) together
with an empty metric map; on the empty metric map the Alert Manager can
trigger no rule — not even one on the `beta` key, since every lookup
yields `None`; and in every returned metric map (empty input or not) no
key is bound to a missing value — each binding comes from a `some`
entry of the raw map. -/
theorem computePairMetrics_empty_placeholder (ta tb : List Tick)
    (w : ℕ) (ii : Bool) (r : AnalyticsResponse)
    (m : List (String × FVal))
    (hok : computePairMetrics ta tb w ii = .ok (r, m)) :
    (((pricesOf ta).length = 0 ∨ (pricesOf tb).length = 0) →
        r = placeholderAnalytics ∧ m = [])
      ∧ (∀ k v, (k, v) ∈ m → (k, some v) ∈ rawMetricsMap r)
      ∧ ∀ (mgr : AlertManager) (now : ℚ),
          (mgr.evaluate now (fun _ => none)).1 = [] := by
  have hempty : ∀ (mgr : AlertManager) (now : ℚ),
      (mgr.evaluate now (fun _ => none)).1 = [] := by
    intro mgr now
    show (evaluateGo now (fun _ => none) mgr.historyLimit
      mgr.alerts mgr.history).1 = []
    rw [evaluateGo_fst]
    calc mgr.alerts.filterMap (evalStep now (fun _ => none))
        = mgr.alerts.filterMap (fun _ => none) := by
          apply List.filterMap_congr
          intro a _
          exact evalStep_metrics_none now a
      _ = [] := filterMap_const_none _
  unfold computePairMetrics at hok
  by_cases hemp : (pricesOf ta).length = 0 ∨ (pricesOf tb).length = 0
  · rw [if_pos hemp] at hok
    refine ⟨fun _ => ?_, fun k v hkv => ?_, hempty⟩
    · cases hok
      exact ⟨rfl, rfl⟩
    · cases hok
      exact absurd hkv (by simp)
  · rw [if_neg hemp] at hok
    refine ⟨fun h => absurd h hemp, fun k v hkv => ?_, hempty⟩
    cases h1 : computeHedgeRatioFn (pricesOf ta) (pricesOf tb) ii with
    | error e => rw [h1] at hok; exact absurd hok (by simp)
    | ok hedge =>
        rw [h1] at hok
        dsimp only at hok
        cases h2 : computeSpread (pricesOf ta) (pricesOf tb) hedge with
        | error e => rw [h2] at hok; exact absurd hok (by simp)
        | ok spread =>
            rw [h2] at hok
            dsimp only at hok
            cases h3 : (if 2 ≤ spread.length then
                computeZscore (spread.map (fun p => p.2))
                  (max (min w spread.length) 2)
              else .ok []) with
            | error e => rw [h3] at hok; exact absurd hok (by simp)
            | ok zs =>
                rw [h3] at hok
                dsimp only at hok
                cases h4 : (if 2 ≤ (pricesOf ta).length
                    ∧ 2 ≤ (pricesOf tb).length then
                    computeRollingCorrelationFn (pricesOf ta)
                      (pricesOf tb) (max (min w spread.length) 2)
                  else .ok []) with
                | error e => rw [h4] at hok; exact absurd hok (by simp)
                | ok cs =>
                    rw [h4] at hok
                    dsimp only at hok
                    cases hok
                    exact mem_rawMetricsMap_of_filter _ k v hkv

/-- Witness for C10 at the empty input. -/
theorem computePairMetrics_empty_placeholder_witness :
    computePairMetrics [] [] 300 true = .ok (placeholderAnalytics, [])
      ∧ ((((pricesOf ([] : List Tick)).length = 0
            ∨ (pricesOf ([] : List Tick)).length = 0) →
          placeholderAnalytics = placeholderAnalytics
            ∧ ([] : List (String × FVal)) = [])
        ∧ (∀ k v, (k, v) ∈ ([] : List (String × FVal)) →
            (k, some v) ∈ rawMetricsMap placeholderAnalytics)
        ∧ ∀ (mgr : AlertManager) (now : ℚ),
            (mgr.evaluate now (fun _ => none)).1 = []) :=
  ⟨by with_unfolding_all rfl,
    computePairMetrics_empty_placeholder [] [] 300 true
      placeholderAnalytics [] (by with_unfolding_all rfl)⟩

/-! ### Persistence worker (`backend/services/persistence.py`) -/

/-- The two things `TickPersistenceWorker._run` can wake up on: a tick
from the queue, or the `asyncio.TimeoutError` of the
`flush_interval` wait. -/
inductive WEvent where
  | tickArrival (t : Tick)
  | flushTimeout
deriving DecidableEq, Repr

/-- Outcome of a worker run segment: the batches written to the store
in order, the remaining in-memory buffer, and the exception (if any)
that escaped the loop and terminated the task. -/
structure WorkerRun where
  written : List (List Tick)
  buffer : List Tick
  failure : Option String
deriving DecidableEq, Repr

/-- `TickPersistenceWorker._flush`: no-op on an empty buffer; otherwise
copy the batch, clear the buffer **before** calling `insert_ticks`, and
let any storage exception propagate.  Returns the flushed batch, or
`none` when there was nothing to flush. -/
def flushStep (store : List Tick → Except String ℕ)
    (buffer : List Tick) : Except String (Option (List Tick)) :=
  if buffer = [] then .ok none
  else
    match store buffer with
    | .ok _ => .ok (some buffer)
    | .error e => .error e

/-- `TickPersistenceWorker._run` over a finite schedule of wake-ups:
buffer each tick and flush when the batch size is reached; flush a
non-empty buffer on timeout.  The surrounding `try` catches only
`asyncio.CancelledError`, so a storage exception ends the recursion —
the `finally` block's conditional flush sees the already-cleared buffer
and does nothing, and no later event is processed. -/
def runWorker (store : List Tick → Except String ℕ) (batchSize : ℕ) :
    List WEvent → List Tick → List (List Tick) → WorkerRun
  | [], buffer, written => ⟨written, buffer, none⟩
  | .tickArrival t :: rest, buffer, written =>
    let buffer2 := buffer ++ [t]
    if batchSize ≤ buffer2.length then
      match flushStep store buffer2 with
      | .ok none => runWorker store batchSize rest [] written
      | .ok (some batch) =>
          runWorker store batchSize rest [] (written ++ [batch])
      | .error e => ⟨written, [], some e⟩
    else runWorker store batchSize rest buffer2 written
  | .flushTimeout :: rest, buffer, written =>
    match flushStep store buffer with
    | .ok none => runWorker store batchSize rest [] written
    | .ok (some batch) =>
        runWorker store batchSize rest [] (written ++ [batch])
    | .error e => ⟨written, [], some e⟩

/-- A store whose write always raises
(`sqlite3.OperationalError('database is locked')`). -/
def failingStore : List Tick → Except String ℕ :=
  fun _ => .error "database is locked"

/-- Claim C2 (code bug): when the durable-store write raises during a
flush, the exception escapes `_flush` and `_run` — whose `try` catches
only `CancelledError` — so the worker task terminates with the storage
error: nothing is logged, and the second tick of the schedule is never
processed.  (The batch is indeed discarded: `_flush` clears the buffer
before calling `insert_ticks`.) -/
theorem persistenceWorker_storeFailure_terminates :
    runWorker failingStore 1
        [WEvent.tickArrival (Tick.mk "btcusdt" 0 100 1),
          WEvent.tickArrival (Tick.mk "btcusdt" 1 101 1)] [] []
      = WorkerRun.mk [] [] (some "database is locked") := by
  with_unfolding_all rfl

/-- `TickPersistenceWorker.stop`: cancel the task (the `CancelledError`
is caught in `_run`, whose `finally` performs `_flush(force=True)` on a
non-empty buffer), then `stop` itself awaits one more
`_flush(force=True)` — a no-op, the buffer being already clear.
Nothing reads the input queue after cancellation.  Returns the batches
written during shutdown and the queue contents left behind; the store
is assumed healthy at shutdown. -/
def stopWorker (queue buffer : List Tick) :
    List (List Tick) × List Tick :=
  (if buffer = [] then [] else [buffer], queue)

/-- Counterexample to claim C6 as stated: with one tick still in the
input queue and one tick in the buffer at shutdown, the final flush
writes only the buffered tick; the queued tick is not drained into it. -/
theorem stopWorker_queue_not_drained_cex :
    (stopWorker [Tick.mk "btcusdt" 9 200 1] [Tick.mk "btcusdt" 5 100 1]).1
        = [[Tick.mk "btcusdt" 5 100 1]]
      ∧ Tick.mk "btcusdt" 9 200 1
          ∈ [Tick.mk "btcusdt" 9 200 1]
      ∧ ¬ Tick.mk "btcusdt" 9 200 1
          ∈ (stopWorker [Tick.mk "btcusdt" 9 200 1]
              [Tick.mk "btcusdt" 5 100 1]).1.flatten := by
  refine ⟨rfl, by simp, ?_⟩
  with_unfolding_all decide

/-- Claim C6 (amended): shutdown performs a final forced flush of the
worker's internal buffer regardless of batch size (`stopWorker` takes
no batch-size argument: `force=True` ignores it), but items still in
the input queue are not drained — everything written at shutdown comes
from the buffer, and the queue is left untouched. -/
theorem stopWorker_final_flush (queue buffer : List Tick) :
    (stopWorker queue buffer).1 = (if buffer = [] then [] else [buffer])
      ∧ (∀ t ∈ (stopWorker queue buffer).1.flatten, t ∈ buffer)
      ∧ (stopWorker queue buffer).2 = queue := by
  refine ⟨rfl, ?_, rfl⟩
  intro t ht
  unfold stopWorker at ht
  by_cases hb : buffer = []
  · rw [if_pos hb] at ht
    simp at ht
  · rw [if_neg hb] at ht
    simpa using ht

/-! ### Stream consumer (`backend/services/ingest.py`) -/

/-- A decoded JSON value, as `json.loads` produces it.  Numeric strings
(Binance sends prices and quantities as decimal strings) are singled
out as `jstrNum` so that Python's `float(str)` conversion can be
embedded exactly; `jstr` covers the non-numeric strings. -/
inductive JVal where
  | jnull
  | jbool (b : Bool)
  | jnum (q : ℚ)
  | jstr (s : String)
  | jstrNum (q : ℚ)
  | jobj (fields : List (String × JVal))
  | jarr (elems : List JVal)

/-- First-match association lookup, `dict.get` on a decoded object. -/
def jLookup (key : String) : List (String × JVal) → Option JVal
  | [] => none
  | (k, v) :: rest => if k = key then some v else jLookup key rest

/-- Python truthiness of a decoded JSON value (`None`, `False`, `0`,
`""`, `{}`, `[]` are falsy). -/
def pyTruthy : JVal → Bool
  | .jnull => false
  | .jbool b => b
  | .jnum q => decide (q ≠ 0)
  | .jstr s => decide (s ≠ "")
  | .jstrNum _ => true
  | .jobj fields => !fields.isEmpty
  | .jarr elems => !elems.isEmpty

/-- Python's `x or y` on optional values: `payload.get("T") or
payload.get("E")` takes the second operand whenever the first is
missing or falsy. -/
def pyOrOpt (a b : Option JVal) : Option JVal :=
  match a with
  | some v => if pyTruthy v then some v else b
  | none => b

/-- `ts_ms / 1000`: defined for numbers (and bools, which Python
treats as 0/1); a `TypeError` for every other operand. -/
def pyNumDiv1000 : JVal → Except String ℚ
  | .jnum q => .ok (q / 1000)
  | .jbool b => .ok ((if b then 1 else 0) / 1000)
  | _ => .error "TypeError"

/-- Python's `float(x)` on the result of `payload.get(...)`:
`float(None)` and `float` of containers raise `TypeError`, `float` of a
non-numeric string raises `ValueError`; numbers, numeric strings and
bools convert. -/
def pyFloat : Option JVal → Except String ℚ
  | none => .error "TypeError"
  | some (.jnum q) => .ok q
  | some (.jstrNum q) => .ok q
  | some (.jbool b) => .ok (if b then 1 else 0)
  | some (.jstr _) => .error "ValueError"
  | some .jnull => .error "TypeError"
  | some (.jobj _) => .error "TypeError"
  | some (.jarr _) => .error "TypeError"

/-- Whether `payload.get("e") != "trade"` fails, i.e. the event-type
field holds exactly the string `"trade"`. -/
def isTrade : Option JVal → Bool
  | some (.jstr s) => s = "trade"
  | _ => false

/-- `BinanceIngestService._parse_message`.  The message is the decoded
JSON (`none` models a `json.JSONDecodeError`, returned as a silent
drop).  Missing event type or timestamp yield `ok none` (dropped);
`float(payload.get("p"))` and `float(payload.get("q"))` raise when the
field is missing or non-numeric, and a non-object payload raises
`AttributeError` at `payload.get` — embedded as `Except.error`. -/
def parseMessage (symbol : String) (message : Option JVal) :
    Except String (Option Tick) :=
  match message with
  | none => .ok none
  | some (.jobj fields) =>
    if isTrade (jLookup "e" fields) = false then .ok none
    else
      match pyOrOpt (jLookup "T" fields) (jLookup "E" fields) with
      | none => .ok none
      | some tsv => do
          let ts ← pyNumDiv1000 tsv
          let price ← pyFloat (jLookup "p" fields)
          let qty ← pyFloat (jLookup "q" fields)
          .ok (some ⟨symbol, ts, price, qty⟩)
  | some _ => .error "AttributeError"

/-- The message loop of `BinanceIngestService._consume_symbol` on one
open connection: parsed ticks are collected in arrival order
(`ok none` drops the message and continues); an exception escaping
`_parse_message` is caught by the surrounding broad `except`, which
abandons the connection (the remaining messages of this connection are
never read) and schedules a reconnect — the `Bool` records whether the
connection survived the whole batch. -/
def consumeMessages (symbol : String) :
    List (Option JVal) → List Tick → List Tick × Bool
  | [], ticks => (ticks, true)
  | m :: rest, ticks =>
    match parseMessage symbol m with
    | .ok none => consumeMessages symbol rest ticks
    | .ok (some t) => consumeMessages symbol rest (ticks ++ [t])
    | .error _ => (ticks, false)

/-- A trade message with event type and timestamp but no price field. -/
def c3BadMsg : Option JVal :=
  some (.jobj [("e", .jstr "trade"), ("T", .jnum 1700000000000)])

/-- A well-formed trade message. -/
def c3GoodMsg : Option JVal :=
  some (.jobj [("e", .jstr "trade"), ("T", .jnum 1700000001000),
    ("p", .jstrNum 100), ("q", .jstrNum 2)])

/-- Claim C3 (code bug): a trade message missing the required price
field is not dropped silently — `float(payload.get("p"))` is
`float(None)`, a `TypeError` that escapes `_parse_message`; the broad
handler in `_consume_symbol` then tears the connection down, so a
well-formed message queued behind it on the same connection is never
processed (while on its own it parses fine). -/
theorem parseMessage_missingPrice_raises :
    parseMessage "btcusdt" c3BadMsg = .error "TypeError"
      ∧ consumeMessages "btcusdt" [c3BadMsg, c3GoodMsg] [] = ([], false)
      ∧ consumeMessages "btcusdt" [c3GoodMsg] []
        = ([Tick.mk "btcusdt" 1700000001 100 2], true) :=
  ⟨by with_unfolding_all rfl, by with_unfolding_all rfl,
    by with_unfolding_all rfl⟩

/-! ### Live metrics stream (`backend/services/live.py`) -/

/-- The subscriber-facing state of `LiveMetricsStream`: the most
recently computed payload and the registered subscriber queues
(each a list of pending payloads, newest last; capacity 200). -/
structure LiveMetricsStream (P : Type) where
  latestPayload : Option P
  subscribers : List (List P)

/-- `LiveMetricsStream.subscribe`: create a queue, `put_nowait` the
latest payload into it when one exists, register it, return it. -/
def LiveMetricsStream.subscribe {P : Type} (st : LiveMetricsStream P) :
    List P × LiveMetricsStream P :=
  let q := match st.latestPayload with
    | some p => [p]
    | none => []
  (q, { st with subscribers := st.subscribers ++ [q] })

/-- `LiveMetricsStream._broadcast`: append the payload to every
subscriber queue that is not full (capacity 200); full queues drop the
newest item for that subscriber only. -/
def LiveMetricsStream.broadcast {P : Type} (st : LiveMetricsStream P)
    (p : P) : LiveMetricsStream P :=
  { st with
    subscribers := st.subscribers.map
      (fun q => if 200 ≤ q.length then q else q ++ [p]) }

/-- Claim C9: a subscriber joining after at least one payload has been
computed finds exactly the most recent payload in its queue immediately
upon subscribing, before any further broadcast. -/
theorem liveStream_subscribe_latest {P : Type}
    (st : LiveMetricsStream P) (p : P)
    (h : st.latestPayload = some p) :
    st.subscribe.1 = [p]
      ∧ st.subscribe.2.subscribers = st.subscribers ++ [[p]] := by
  unfold LiveMetricsStream.subscribe
  rw [h]
  exact ⟨rfl, rfl⟩

/-- Witness for C9 at a concrete state. -/
theorem liveStream_subscribe_latest_witness :
    (LiveMetricsStream.mk (some 7) ([] : List (List ℕ))).latestPayload
        = some 7
      ∧ (LiveMetricsStream.mk (some 7)
          ([] : List (List ℕ))).subscribe.1 = [7]
      ∧ (LiveMetricsStream.mk (some 7)
            ([] : List (List ℕ))).subscribe.2.subscribers
        = [] ++ [[7]] :=
  ⟨rfl,
    (liveStream_subscribe_latest (LiveMetricsStream.mk (some 7) []) 7
      rfl).1,
    (liveStream_subscribe_latest (LiveMetricsStream.mk (some 7) []) 7
      rfl).2⟩
